import Mathlib

/-!
# Verification of the animesubinfo specification

Shallow embedding of the core of the `animesubinfo` library (string
normalizer, fitness scorer, search-result record assembly, catalog
streaming scraper, download pipeline, archive selection) together with
proofs and refutations of the frozen claims about it.

The repository ships only the test suites of the library; the library
modules themselves (`animesubinfo.utils`, `animesubinfo.models`,
`animesubinfo.parsers`, `animesubinfo.api`) are not present.  Every
definition below is therefore modelled from the specification, and
checked against the literal input/output pairs that the in-repo test
suites pin down.
-/

namespace Animesubinfo

/-! ## Normalizer (spec 4.1) -/

/-- A decimal digit (code points 48-57). -/
def isDigitChar (c : Char) : Bool := 48 ≤ c.toNat && c.toNat ≤ 57

/-- An alphanumeric character in the base Latin range, lower case.
Normalization lowercases before tokenizing, so only lower-case letters
and digits can occur inside tokens. -/
def isLowerAlnum (c : Char) : Bool :=
  (97 ≤ c.toNat && c.toNat ≤ 122) || (48 ≤ c.toNat && c.toNat ≤ 57)

/-- Modelled from the spec: step 2 of `normalize` (lowercasing); the
library's implementation is absent from the sources.  Maps the base
Latin upper-case range onto the lower-case range and leaves every other
character unchanged. -/
def lowerChar (c : Char) : Char :=
  if 65 ≤ c.toNat && c.toNat ≤ 90 then Char.ofNat (c.toNat + 32) else c

/-- Modelled from the spec: the tokenization underlying steps 4 and 5 of
`normalize` ("as delimited tokens pre-step-3"): maximal runs of base
Latin alphanumerics, every other character acting as a delimiter that
step 3 drops.  `acc` holds the current run, reversed. -/
def tokenizeAux : List Char → List Char → List (List Char)
  | [], acc => if acc.isEmpty then [] else [acc.reverse]
  | c :: cs, acc =>
    if isLowerAlnum c then tokenizeAux cs (c :: acc)
    else if acc.isEmpty then tokenizeAux cs []
    else acc.reverse :: tokenizeAux cs []

/-- The maximal alphanumeric runs of a (lowercased) character list. -/
def tokenize (l : List Char) : List (List Char) := tokenizeAux l []

/-- Modelled from the spec: step 4 of `normalize` — a standalone Roman
numeral token `I…X` and its decimal replacement.  Keys are lower case
because step 2 has already run. -/
def romanPairs : List (List Char × List Char) :=
  [(['i'], ['1']), (['i', 'i'], ['2']), (['i', 'i', 'i'], ['3']),
   (['i', 'v'], ['4']), (['v'], ['5']), (['v', 'i'], ['6']),
   (['v', 'i', 'i'], ['7']), (['v', 'i', 'i', 'i'], ['8']),
   (['i', 'x'], ['9']), (['x'], ['1', '0'])]

/-- The decimal replacement of a Roman numeral token, when it is one. -/
def romanValue (t : List Char) : Option (List Char) :=
  (romanPairs.find? fun p => p.1 = t).map Prod.snd

/-- The ten Roman numeral tokens recognized by step 4. -/
def romanKeys : List (List Char) := romanPairs.map Prod.fst

/-- Modelled from the spec: step 5 of `normalize`, scoped per token as
the in-repo test `test_normalize_trailing_zeros` pins down (`bar01`
keeps its zero): the token-initial maximal run of digits loses its
leading zeros, collapsing to a single `0` when the run is all zeros. -/
def stripZeros (t : List Char) : List Char :=
  let run := t.takeWhile isDigitChar
  let rest := t.drop run.length
  if run.isEmpty then t
  else
    let stripped := run.dropWhile (fun c => c = '0')
    if stripped.isEmpty then '0' :: rest else stripped ++ rest

/-- One token after steps 4 and 5. -/
def processTok (t : List Char) : List Char :=
  match romanValue t with
  | some d => d
  | none => stripZeros t

/-- Normalization on character lists: lowercase, tokenize, replace Roman
numeral tokens, strip leading zeros, and concatenate (dropping the
delimiters, which is step 3). -/
def normalizeL (l : List Char) : List Char :=
  ((tokenize (l.map lowerChar)).map processTok).flatten

/-- Modelled from the spec: `normalize(s)` of spec 4.1.  Step 1
(decoding to a canonical character form) is the identity on the
already-decoded strings modelled here. -/
def normalize (s : String) : String := ⟨normalizeL s.data⟩

/-! ## Data model (spec 3) -/

/-- A calendar date, as parsed from a search-result row. -/
structure SimpleDate where
  year : Nat
  month : Nat
  day : Nat
deriving DecidableEq

/-- The three-bucket rating distribution of a subtitle record. -/
structure SubtitlesRating where
  bad : Nat
  average : Nat
  very_good : Nat
deriving DecidableEq

/-- A subtitle record (`SubtitleRecord` of spec 3, `Subtitles` in the
test suites): an immutable snapshot parsed from one search-result row. -/
structure Subtitles where
  id : Nat
  episode : Nat
  to_episode : Nat
  original_title : String
  english_title : String
  alt_title : String
  date : SimpleDate
  format : String
  author : String
  added_by : String
  size : String
  description : String
  comment_count : Nat
  downloaded_times : Nat
  rating : SubtitlesRating
deriving DecidableEq

/-- A decomposed video file name (spec 3): the fixed enumerated
attribute set.  Attributes that the scorer reads as single values are
`Option String`; the ones that may be list-valued are `List String`
(absent = `[]`, single = one element). -/
structure DecomposedFileName where
  anime_title : Option String := none
  episode_number : Option String := none
  anime_year : List String := []
  anime_season : List String := []
  anime_type : List String := []
  video_term : List String := []
  video_resolution : List String := []
  audio_term : List String := []
  file_checksum : List String := []
  file_name : List String := []
  release_group : List String := []
  source : List String := []
deriving DecidableEq

/-! ## FitnessScorer (spec 4.4) -/

/-- Longest common subsequence length, with explicit fuel so that the
recursion is structural (the fuel `a.length + b.length` always
suffices). -/
def lcsLenF : Nat → List Char → List Char → Nat
  | 0, _, _ => 0
  | _ + 1, [], _ => 0
  | _ + 1, _ :: _, [] => 0
  | n + 1, x :: xs, y :: ys =>
    if x = y then lcsLenF n xs ys + 1
    else max (lcsLenF n (x :: xs) ys) (lcsLenF n xs (y :: ys))

/-- Length of a longest common subsequence of two character lists. -/
def lcsLen (a b : List Char) : Nat := lcsLenF (a.length + b.length) a b

/-- Modelled from the spec: the "normalized-string ratio
(longest-common-subsequence based)" of spec 4.2/4.4,
`2*lcs/(|a|+|b|)`, as the integer-rounded percent (round half up).
Empty-against-empty has no similarity basis and yields 0. -/
def simPct (t q : List Char) : Nat :=
  let d := t.length + q.length
  if d = 0 then 0 else (400 * lcsLen t q + d) / (2 * d)

/-- The 0.60 similarity threshold of spec 4.4, on the exact ratio:
`2*lcs/(|t|+|q|) ≥ 3/5`, cross-multiplied. -/
def simOk (t q : List Char) : Bool :=
  let d := t.length + q.length
  decide (0 < d) && decide (3 * d ≤ 10 * lcsLen t q)

/-- Whether `needle` occurs contiguously inside `hay` (both already
normalized).  Spec 4.4: "the normalized value appears ... in the
normalized concatenation"; an empty needle does not count as a match. -/
def containsTok (needle : List Char) : List Char → Bool
  | [] => false
  | c :: cs => needle.isPrefixOf (c :: cs) || containsTok needle cs

/-- Parse a non-empty all-digit string as a natural number. -/
def parseNat? (l : List Char) : Option Nat :=
  if !l.isEmpty && l.all isDigitChar then
    some (l.foldl (fun acc c => 10 * acc + (c.toNat - 48)) 0)
  else none

/-- The file-name stem: everything before the last dot (the whole name
when there is no dot).  The in-repo test `test_tier2_one_match_filename`
pins down that the extension of the decomposed `file_name` does not take
part in the match. -/
def stemL (l : List Char) : List Char :=
  match l.reverse.dropWhile (fun c => c ≠ '.') with
  | [] => l
  | _ :: rest => rest.reverse

/-- The normalized concatenation of the record's titles and description
(spec 4.4), against which tier attribute values are matched. -/
def haystack (s : Subtitles) : List Char :=
  normalizeL (s.original_title ++ " " ++ s.english_title ++ " "
      ++ s.alt_title ++ " " ++ s.description).data

/-- A single attribute value matches when its normalization is non-empty
and appears in the record's normalized titles-plus-description. -/
def valueMatches (s : Subtitles) (v : String) : Bool :=
  let nv := normalizeL v.data
  !nv.isEmpty && containsTok nv (haystack s)

/-- A list-valued attribute matches when any element matches. -/
def anyMatches (s : Subtitles) (vs : List String) : Bool :=
  vs.any (valueMatches s)

/-- The `file_name` attribute matches on its stem. -/
def fileNameMatches (s : Subtitles) (vs : List String) : Bool :=
  vs.any (fun v => valueMatches s ⟨stemL v.data⟩)

/-- The `anime_year` attribute also matches the record's publication
year (the in-repo test `test_tier4_one_match_year` pins this down) in
addition to years appearing in the titles or description. -/
def yearValueMatches (s : Subtitles) (v : String) : Bool :=
  valueMatches s v || parseNat? v.data == some s.date.year

/-- Tier 2 count `C` (spec 4.4): `file_checksum`, `file_name`,
`source`. -/
def tier2Count (s : Subtitles) (f : DecomposedFileName) : Nat :=
  (anyMatches s f.file_checksum).toNat + (fileNameMatches s f.file_name).toNat
    + (anyMatches s f.source).toNat

/-- Tier 3 bit `B` (spec 4.4): `release_group`. -/
def tier3Bit (s : Subtitles) (f : DecomposedFileName) : Nat :=
  (anyMatches s f.release_group).toNat

/-- Tier 4 count `A` (spec 4.4): `anime_year`, `anime_season`,
`anime_type`, `video_term`, `video_resolution`, `audio_term`. -/
def tier4Count (s : Subtitles) (f : DecomposedFileName) : Nat :=
  (f.anime_year.any (yearValueMatches s)).toNat
    + (anyMatches s f.anime_season).toNat + (anyMatches s f.anime_type).toNat
    + (anyMatches s f.video_term).toNat + (anyMatches s f.video_resolution).toNat
    + (anyMatches s f.audio_term).toNat

/-- The normalized decomposed `anime_title` (empty when absent). -/
def animeTitleNorm (f : DecomposedFileName) : List Char :=
  match f.anime_title with
  | none => []
  | some t => normalizeL t.data

/-- The three normalized record titles. -/
def titleCands (s : Subtitles) : List (List Char) :=
  [normalizeL s.original_title.data, normalizeL s.english_title.data,
   normalizeL s.alt_title.data]

/-- The component `T`: the integer-rounded best title similarity percent. -/
def bestTitlePercent (s : Subtitles) (q : List Char) : Nat :=
  (titleCands s).foldl (fun acc t => max acc (simPct t q)) 0

/-- Hard filter: the best title similarity must reach 0.60. -/
def titleFilterOk (s : Subtitles) (q : List Char) : Bool :=
  (titleCands s).any (fun t => simOk t q)

/-- Hard filter: `anime_title` present and non-empty. -/
def titlePresent (f : DecomposedFileName) : Bool :=
  match f.anime_title with
  | none => false
  | some t => t != ""

/-- Hard filter on the episode (spec 4.4): an episode record needs a
decomposed episode number that parses into its inclusive range; a movie
record (`episode = 0`) forbids any episode number. -/
def episodeOk (s : Subtitles) (f : DecomposedFileName) : Bool :=
  match f.episode_number with
  | none => s.episode == 0
  | some v =>
    if s.episode = 0 then false
    else
      match parseNat? v.data with
      | none => false
      | some e => s.episode ≤ e && e ≤ s.to_episode

/-- All hard filters of spec 4.4. -/
def hardOk (s : Subtitles) (f : DecomposedFileName) : Bool :=
  titlePresent f && episodeOk s f && titleFilterOk s (animeTitleNorm f)

/-- The bit-packed composite of spec 4.4:
`((T+1) <<< 8) ||| (C <<< 5) ||| (B <<< 4) ||| A`. -/
def packScore (s : Subtitles) (f : DecomposedFileName) : Nat :=
  ((bestTitlePercent s (animeTitleNorm f) + 1) <<< 8)
    ||| (tier2Count s f <<< 5) ||| (tier3Bit s f <<< 4) ||| tier4Count s f

/-- Modelled from the spec: `Subtitles.calculate_fitness` (spec 4.4);
the implementation module `animesubinfo.models` is absent from the
sources.  Any hard-filter failure scores 0, otherwise the tiered
bit-packed composite. -/
def calculate_fitness (s : Subtitles) (f : DecomposedFileName) : Nat :=
  if hardOk s f then packScore s f else 0

/-- The record of end-to-end scenario 3 of spec 8. -/
def scenario3Record : Subtitles :=
  { id := 1, episode := 5, to_episode := 5,
    original_title := "Kimetsu no Yaiba", english_title := "",
    alt_title := "", date := ⟨2019, 1, 1⟩, format := "", author := "",
    added_by := "", size := "",
    description := "BluRay my_file ABCD1234 SubsPlease 2019 Season 2 TV H264 1080p AAC",
    comment_count := 0, downloaded_times := 0, rating := ⟨0, 0, 0⟩ }

/-- The decomposed map of end-to-end scenario 3 of spec 8. -/
def scenario3Parsed : DecomposedFileName :=
  { anime_title := some "Kimetsu no Yaiba", episode_number := some "5",
    file_checksum := ["ABCD1234"], file_name := ["my_file.mkv"],
    source := ["BluRay"], release_group := ["SubsPlease"],
    anime_year := ["2019"], anime_season := ["2"], anime_type := ["TV"],
    video_term := ["H264"], video_resolution := ["1080p"],
    audio_term := ["AAC"] }

/-! ## SearchScraper row assembly (spec 4.3)

The streaming HTML scraper itself is absent from the sources; following
spec 4.3 ("a row is the region between recognizable row-start and
row-end anchors; fields are at fixed positions within the row
template"), the tag-event layer is abstracted away and a page is
modelled as the sequence of the per-row cell contents it carries. -/

/-- Modelled from the spec: the special "movie" marker of the episode
cell (spec 4.3); its literal site spelling is not material to any
claim. -/
def movieMarker : String := "FILM"

/-- Modelled from the spec: decoding of the episode cell (spec 4.3):
`N` means `episode = to_episode = N`, `N-M` means a pack, the movie
marker means `(0, 0)`.  The parser "tolerates missing/empty cells by
emitting empty strings / zeros", so a cell that fits none of the three
shapes — including a range that would violate the record invariants of
spec 3 — decodes to the zeros `(0, 0)`. -/
def parseEpisodeCell (cell : String) : Nat × Nat :=
  if cell = movieMarker then (0, 0)
  else
    match parseNat? cell.data with
    | some n => (n, n)
    | none =>
      match cell.data.splitOn '-' with
      | [a, b] =>
        match parseNat? a, parseNat? b with
        | some n, some m => if 0 < n && n ≤ m then (n, m) else (0, 0)
        | _, _ => (0, 0)
      | _ => (0, 0)

/-- Modelled from the spec: decoding of the three parallel percent
indicators of the rating cell (spec 4.3).  The three values must encode
a normalized distribution ("their sum is 0 (no votes) or 100"); any
other triple is malformed and tolerated as the no-votes zeros. -/
def parseRatingCells (b a v : Nat) : SubtitlesRating :=
  if b + a + v = 100 then ⟨b, a, v⟩ else ⟨0, 0, 0⟩

/-- The cell contents of one search-result row, as delivered by the row
template of spec 4.3.  `sh` is the per-row download token (absent for a
silent row). -/
structure RawRow where
  idCell : String
  episodeCell : String
  original_title : String
  english_title : String
  alt_title : String
  date : SimpleDate
  format : String
  author : String
  added_by : String
  size : String
  description : String
  comment_count : Nat
  downloaded_times : Nat
  ratingBad : Nat
  ratingAverage : Nat
  ratingVeryGood : Nat
  sh : Option String
deriving DecidableEq

/-- Modelled from the spec: assembly of one `SubtitleRecord` from a row
(spec 4.3).  A row whose id cell does not carry a positive integer
cannot form a record (`id > 0` is an invariant of spec 3) and is
dropped. -/
def parseRow (row : RawRow) : Option Subtitles :=
  match parseNat? row.idCell.data with
  | none => none
  | some i =>
    if i = 0 then none
    else
      let ep := parseEpisodeCell row.episodeCell
      some
        { id := i, episode := ep.1, to_episode := ep.2,
          original_title := row.original_title,
          english_title := row.english_title, alt_title := row.alt_title,
          date := row.date, format := row.format, author := row.author,
          added_by := row.added_by, size := row.size,
          description := row.description, comment_count := row.comment_count,
          downloaded_times := row.downloaded_times,
          rating := parseRatingCells row.ratingBad row.ratingAverage row.ratingVeryGood }

/-- Modelled from the spec: the ordered record list a search-results
page yields (spec 4.3), rows in page order. -/
def parseSearchResults (rows : List RawRow) : List Subtitles :=
  rows.filterMap parseRow

/-! ## DownloadPipeline (spec 4.6, protocol steps 1-4) -/

/-- The session token captured for a record: `(sh, cookie)` (spec 3). -/
structure SessionData where
  sh : String
  ansi_cookie : String
deriving DecidableEq

/-- The download pipeline's failure modes relevant to token handling
(spec 7); transport errors are surfaced by the HTTP layer, which is
abstracted here. -/
inductive DownloadError
  | sessionData (subtitle_id : Nat)
  | security (subtitle_id : Nat) (sh : String) (cookie : String)
deriving DecidableEq

/-- The POST response of `sciagnij.php`, as seen by the pipeline. -/
structure PostResponse where
  contentType : String
  body : String
  filename : String
  contentLength : Nat
deriving DecidableEq

/-- A successful download handle (spec 4.6 step 4-5). -/
structure DownloadResult where
  filename : String
  content_length : Nat
  content : String
deriving DecidableEq

/-- Spec 4.6 step 3: the response body begins as an HTML document —
content-type `text/html` or a leading `<html`. -/
def isHtmlResponse (r : PostResponse) : Bool :=
  "text/html".data.isPrefixOf r.contentType.data
    || "<html".data.isPrefixOf r.body.data

/-- Modelled from the spec: `download(subtitle_id)` (spec 4.6, steps
1-4); the implementation module `animesubinfo.api` is absent from the
sources.  `session` is the outcome of the token resolution of step 1,
`resp` the (2xx) response the POST of step 2 would deliver; the
suspension structure of the protocol is abstracted into these two
inputs. -/
def download_subtitles (subtitle_id : Nat) (session : Option SessionData)
    (resp : PostResponse) : Except DownloadError DownloadResult :=
  match session with
  | none => .error (.sessionData subtitle_id)
  | some t =>
    if isHtmlResponse resp then
      .error (.security subtitle_id t.sh t.ansi_cookie)
    else
      .ok ⟨resp.filename, resp.contentLength, resp.body⟩

/-! ## ArchiveSelector (spec 4.6, `download_and_extract`) -/

/-- Archive failure: the listed archive has no entries (spec 4.6 step 2). -/
inductive ArchiveError
  | emptyArchive
deriving DecidableEq

/-- One member of the downloaded ZIP archive. -/
structure ZipEntry where
  name : String
  content : List Nat
deriving DecidableEq

/-- Modelled from the spec: the pseudo-record synthesized for an archive
entry (spec 4.6 step 3): the entry's file-name components — produced by
the external `FilenameDecomposer`, passed in as `decompose` — feed the
record fields the scorer reads, with the raw name as the description so
that release group, resolution and similar components can match. -/
def pseudoRecord (decompose : String → DecomposedFileName) (name : String) : Subtitles :=
  let dec := decompose name
  let ep :=
    match dec.episode_number with
    | none => 0
    | some v => (parseNat? v.data).getD 0
  { id := 1, episode := ep, to_episode := ep,
    original_title := dec.anime_title.getD "",
    english_title := "", alt_title := "", date := ⟨0, 0, 0⟩,
    format := "", author := "", added_by := "", size := "",
    description := name, comment_count := 0, downloaded_times := 0,
    rating := ⟨0, 0, 0⟩ }

/-- The fitness of one archive entry against the decomposed request:
"run the same fitness comparison used by SearchDriver" (spec 4.6). -/
def entryScore (decompose : String → DecomposedFileName)
    (f : DecomposedFileName) (e : ZipEntry) : Nat :=
  calculate_fitness (pseudoRecord decompose e.name) f

/-- The first entry attaining the maximum score (ties broken by archive
order, spec 4.6 step 4). -/
def pickBest (score : ZipEntry → Nat) : List ZipEntry → Option ZipEntry
  | [] => none
  | e :: rest =>
    match pickBest score rest with
    | none => some e
    | some b => some (if score e < score b then b else e)

/-- Modelled from the spec: entry selection inside
`download_and_extract` (spec 4.6 steps 2-4); the implementation module
`animesubinfo.api` is absent from the sources.  The download and unzip
transport is abstracted into the entry list. -/
def download_and_extract (decompose : String → DecomposedFileName)
    (f : DecomposedFileName) (entries : List ZipEntry) :
    Except ArchiveError ZipEntry :=
  match entries with
  | [] => .error .emptyArchive
  | e0 :: rest =>
    match pickBest (entryScore decompose f) (e0 :: rest) with
    | none => .ok e0
    | some best => .ok (if 0 < entryScore decompose f best then best else e0)

/-! ## CatalogScraper streaming (spec 4.2)

The HTML tokenizer is absent from the sources; per spec 4.2 the page is
abstracted into the sequence of catalog entries it lists, and a chunk is
a run of consecutive entries. -/

/-- One catalog anchor: visible text, hover tooltip, search URL. -/
structure CatalogEntry where
  text : String
  tooltip : String
  url : String
deriving DecidableEq

/-- The scraper's streaming state: the exact-match result (null until
found) and the entries seen so far (the basis of the end-of-feed fuzzy
match, which is not part of the streamed `result`). -/
structure CatalogState where
  exact : Option String
  seen : List CatalogEntry
deriving DecidableEq

/-- The state before any chunk is fed. -/
def initCatalogState : CatalogState := ⟨none, []⟩

/-- Exact normalized match of one entry against the candidate-title
variant set (spec 4.2 step 2): equality on the normalized (primary
text, tooltip) pair. -/
def entryExact (variants : List String) (e : CatalogEntry) : Bool :=
  variants.any fun v =>
    normalize v == normalize e.text || normalize v == normalize e.tooltip

/-- Modelled from the spec: consuming one catalog entry (spec 4.2):
the first exact hit wins and a set result never changes. -/
def feedEntry (variants : List String) (st : CatalogState) (e : CatalogEntry) :
    CatalogState :=
  { exact :=
      match st.exact with
      | some u => some u
      | none => if entryExact variants e then some e.url else none,
    seen := st.seen ++ [e] }

/-- Modelled from the spec: `feed` of one chunk (spec 4.2's streaming
contract); the scraper module is absent from the sources. -/
def feed (variants : List String) (st : CatalogState)
    (chunk : List CatalogEntry) : CatalogState :=
  chunk.foldl (feedEntry variants) st

/-- The `result` the scraper exposes after every chunk (spec 4.2): the
exact-match URL or null. -/
def result (st : CatalogState) : Option String := st.exact

/-! ## Concrete fixtures used by the witnesses -/

/-- A record with the given original title and description and no
other title data. -/
def titleRecord (t desc : String) : Subtitles :=
  { id := 1, episode := 1, to_episode := 1, original_title := t,
    english_title := "", alt_title := "", date := ⟨2019, 1, 1⟩,
    format := "", author := "", added_by := "", size := "",
    description := desc, comment_count := 0, downloaded_times := 0,
    rating := ⟨0, 0, 0⟩ }

/-- A clean episode-1 record with a perfect title. -/
def witnessRecord : Subtitles := titleRecord "Kimetsu no Yaiba" ""

/-- The same title with a trailing addition, lowering the similarity. -/
def weakTitleRecord : Subtitles := titleRecord "Kimetsu no Yaiba 123" ""

/-- Only the Tier-2 `source` value in the description. -/
def tier2Record : Subtitles := titleRecord "Kimetsu no Yaiba" "BluRay"

/-- Only the Tier-3 release group in the description. -/
def tier3Record : Subtitles := titleRecord "Kimetsu no Yaiba" "SubsPlease"

/-- Only a single Tier-4 value in the description. -/
def tier4Record : Subtitles := titleRecord "Kimetsu no Yaiba" "1080p"

/-- A decomposed request matching `witnessRecord` on title and episode. -/
def witnessParsed : DecomposedFileName :=
  { anime_title := some "Kimetsu no Yaiba", episode_number := some "1" }

/-- A decomposed request whose episode number does not parse. -/
def badEpisodeParsed : DecomposedFileName :=
  { anime_title := some "Kimetsu no Yaiba", episode_number := some "not_a_number" }

/-- The decomposed map of `test_empty_description_no_crashes`. -/
def emptyDescParsed : DecomposedFileName :=
  { anime_title := some "Kimetsu no Yaiba", episode_number := some "1",
    file_checksum := ["ABCD1234"], source := ["BluRay"] }

/-- A decomposed request carrying one value of each of the three lower
tiers. -/
def dominanceParsed : DecomposedFileName :=
  { anime_title := some "Kimetsu no Yaiba", episode_number := some "1",
    source := ["BluRay"], release_group := ["SubsPlease"],
    video_resolution := ["1080p"] }

/-- Two example rows (from the in-repo search-results fixtures): a
single-episode row and a 1-9 pack row. -/
def episodeRow : RawRow :=
  { idCell := "17833", episodeCell := "1",
    original_title := "Higurashi no Naku Koro ni Kai",
    english_title := "Higurashi no Naku Koro ni Kai",
    alt_title := "When They Cry - Higurashi 2", date := ⟨2007, 8, 31⟩,
    format := "Advanced SSA", author := "lb333", added_by := "lb333",
    size := "27kB", description := "", comment_count := 15,
    downloaded_times := 4733, ratingBad := 0, ratingAverage := 0,
    ratingVeryGood := 100, sh := some "sh1" }

/-- The pack row `14480` of the pack fixture. -/
def packRow : RawRow :=
  { idCell := "14480", episodeCell := "1-9",
    original_title := "Shin Seiki Evangelion",
    english_title := "Neon Genesis Evangelion",
    alt_title := "Neon Genesis Evangelion", date := ⟨2006, 12, 9⟩,
    format := "SubStationAlpha", author := "nieznany",
    added_by := "barauna", size := "77kB",
    description := "Poprawiony timing", comment_count := 0,
    downloaded_times := 1722, ratingBad := 0, ratingAverage := 0,
    ratingVeryGood := 0, sh := none }

/-- A decomposer covering the two demo archive entries. -/
def demoDecomposer (s : String) : DecomposedFileName :=
  if s = "Anime - 2.srt" then
    { anime_title := some "Anime", episode_number := some "2" }
  else if s = "Anime - 3.srt" then
    { anime_title := some "Anime", episode_number := some "3" }
  else {}

/-- A two-entry demo archive. -/
def demoEntries : List ZipEntry :=
  [⟨"Anime - 2.srt", [11]⟩, ⟨"Anime - 3.srt", [22]⟩]

/-- A request for episode 3 of the demo anime. -/
def demoRequest : DecomposedFileName :=
  { anime_title := some "Anime", episode_number := some "3" }

/-- A request for episode 9, which no demo entry covers. -/
def demoMissRequest : DecomposedFileName :=
  { anime_title := some "Anime", episode_number := some "9" }

/-- The session token of `test_download_subtitles_security_error`. -/
def demoSession : SessionData :=
  ⟨"test_sh_value_12345678901234567890", "test_cookie_12345678901234567890"⟩

/-- The HTML rejection response of the security-error test. -/
def htmlResponse : PostResponse :=
  { contentType := "text/html; charset=iso-8859-2",
    body := "<html><body>Blad zabezpieczen</body></html>",
    filename := "", contentLength := 43 }

/-- A normal archive response. -/
def zipResponse : PostResponse :=
  { contentType := "application/zip", body := "PK",
    filename := "test_subtitle.zip", contentLength := 16 }

/-- A catalog entry whose tooltip carries the Japanese title. -/
def demoEntryA : CatalogEntry :=
  ⟨"Elf Princess Rane", "Yousei Hime Ren",
   "szukaj_old.php?pTitle=en&szukane=Elf+Princess+Rane"⟩

/-- A second, unrelated catalog entry. -/
def demoEntryB : CatalogEntry :=
  ⟨"Yuru Camp", "", "szukaj_old.php?pTitle=jp&szukane=Yuru+Camp"⟩

/-- The variant set of a query for the first demo entry. -/
def demoVariants : List String := ["Elf Princess Rane"]

/-- The record that `packRow` assembles into. -/
def packRowRecord : Subtitles :=
  { id := 14480, episode := 1, to_episode := 9,
    original_title := "Shin Seiki Evangelion",
    english_title := "Neon Genesis Evangelion",
    alt_title := "Neon Genesis Evangelion", date := ⟨2006, 12, 9⟩,
    format := "SubStationAlpha", author := "nieznany",
    added_by := "barauna", size := "77kB",
    description := "Poprawiony timing", comment_count := 0,
    downloaded_times := 1722, rating := ⟨0, 0, 0⟩ }

/-! ## Bounds on the scorer components -/

theorem lcsLenF_le_left : ∀ (n : Nat) (a b : List Char), lcsLenF n a b ≤ a.length := by
  intro n
  induction n with
  | zero => intro a b; simp [lcsLenF]
  | succ n ih =>
    intro a b
    match a, b with
    | [], _ => simp [lcsLenF]
    | _ :: _, [] => simp [lcsLenF]
    | x :: xs, y :: ys =>
      simp only [lcsLenF, List.length_cons]
      split
      · exact Nat.succ_le_succ (ih xs ys)
      · exact max_le (ih (x :: xs) ys) (Nat.le_succ_of_le (ih xs (y :: ys)))

theorem lcsLenF_le_right : ∀ (n : Nat) (a b : List Char), lcsLenF n a b ≤ b.length := by
  intro n
  induction n with
  | zero => intro a b; simp [lcsLenF]
  | succ n ih =>
    intro a b
    match a, b with
    | [], _ => simp [lcsLenF]
    | _ :: _, [] => simp [lcsLenF]
    | x :: xs, y :: ys =>
      simp only [lcsLenF, List.length_cons]
      split
      · exact Nat.succ_le_succ (ih xs ys)
      · exact max_le (Nat.le_succ_of_le (ih (x :: xs) ys)) (ih xs (y :: ys))

theorem simPct_le_100 (t q : List Char) : simPct t q ≤ 100 := by
  simp only [simPct]
  split
  · exact Nat.zero_le _
  · rename_i hd
    have h1 := lcsLenF_le_left (t.length + q.length) t q
    have h2 := lcsLenF_le_right (t.length + q.length) t q
    have hlt : (400 * lcsLen t q + (t.length + q.length))
        / (2 * (t.length + q.length)) < 101 := by
      rw [Nat.div_lt_iff_lt_mul (by omega : 0 < 2 * (t.length + q.length))]
      unfold lcsLen
      omega
    omega

theorem simOk_pct (t q : List Char) (h : simOk t q = true) : 60 ≤ simPct t q := by
  simp only [simOk, Bool.and_eq_true, decide_eq_true_eq] at h
  simp only [simPct]
  rw [if_neg (by omega)]
  rw [Nat.le_div_iff_mul_le (by omega : 0 < 2 * (t.length + q.length))]
  omega

theorem btoNat_le_one (b : Bool) : b.toNat ≤ 1 := by cases b <;> simp

theorem tier2Count_le (s : Subtitles) (f : DecomposedFileName) : tier2Count s f ≤ 3 := by
  unfold tier2Count
  have h1 := btoNat_le_one (anyMatches s f.file_checksum)
  have h2 := btoNat_le_one (fileNameMatches s f.file_name)
  have h3 := btoNat_le_one (anyMatches s f.source)
  omega

theorem tier3Bit_le (s : Subtitles) (f : DecomposedFileName) : tier3Bit s f ≤ 1 := by
  unfold tier3Bit
  exact btoNat_le_one _

theorem tier4Count_le (s : Subtitles) (f : DecomposedFileName) : tier4Count s f ≤ 6 := by
  unfold tier4Count
  have h1 := btoNat_le_one (f.anime_year.any (yearValueMatches s))
  have h2 := btoNat_le_one (anyMatches s f.anime_season)
  have h3 := btoNat_le_one (anyMatches s f.anime_type)
  have h4 := btoNat_le_one (anyMatches s f.video_term)
  have h5 := btoNat_le_one (anyMatches s f.video_resolution)
  have h6 := btoNat_le_one (anyMatches s f.audio_term)
  omega

theorem bestTitlePercent_le_100 (s : Subtitles) (q : List Char) :
    bestTitlePercent s q ≤ 100 := by
  have h1 := simPct_le_100 (normalizeL s.original_title.data) q
  have h2 := simPct_le_100 (normalizeL s.english_title.data) q
  have h3 := simPct_le_100 (normalizeL s.alt_title.data) q
  simp only [bestTitlePercent, titleCands, List.foldl]
  omega

theorem bestTitlePercent_ge_60 (s : Subtitles) (q : List Char)
    (h : titleFilterOk s q = true) : 60 ≤ bestTitlePercent s q := by
  simp only [titleFilterOk, titleCands, List.any_cons, List.any_nil,
    Bool.or_eq_true, Bool.or_false] at h
  simp only [bestTitlePercent, titleCands, List.foldl]
  rcases h with h | h | h <;>
    have := simOk_pct _ q h <;> omega

set_option maxHeartbeats 1000000 in
theorem packBridge : ∀ T < 101, ∀ C < 4, ∀ B < 2, ∀ A < 7,
    ((T + 1) <<< 8) ||| (C <<< 5) ||| (B <<< 4) ||| A
      = (T + 1) * 256 + C * 32 + B * 16 + A := by decide

theorem packScore_eq (s : Subtitles) (f : DecomposedFileName)
    (hT : bestTitlePercent s (animeTitleNorm f) ≤ 100) :
    packScore s f = (bestTitlePercent s (animeTitleNorm f) + 1) * 256
      + tier2Count s f * 32 + tier3Bit s f * 16 + tier4Count s f :=
  packBridge _ (by omega) _ (by have := tier2Count_le s f; omega)
    _ (by have := tier3Bit_le s f; omega)
    _ (by have := tier4Count_le s f; omega)

theorem hardOk_parts (s : Subtitles) (f : DecomposedFileName) (h : hardOk s f = true) :
    titlePresent f = true ∧ episodeOk s f = true
      ∧ titleFilterOk s (animeTitleNorm f) = true := by
  simpa only [hardOk, Bool.and_eq_true, and_assoc] using h

theorem calculate_fitness_pos (s : Subtitles) (f : DecomposedFileName)
    (h : hardOk s f = true) : 0 < calculate_fitness s f := by
  have hp := packScore_eq s f (bestTitlePercent_le_100 s (animeTitleNorm f))
  unfold calculate_fitness
  rw [if_pos h]
  omega

theorem calculate_fitness_pos_iff (s : Subtitles) (f : DecomposedFileName) :
    0 < calculate_fitness s f ↔ hardOk s f = true := by
  constructor
  · intro hp
    by_contra hb
    unfold calculate_fitness at hp
    rw [if_neg hb] at hp
    omega
  · exact calculate_fitness_pos s f

theorem titlePresent_iff (f : DecomposedFileName) :
    titlePresent f = true ↔ ∃ t, f.anime_title = some t ∧ t ≠ "" := by
  unfold titlePresent
  cases hf : f.anime_title with
  | none => simp
  | some t => simp [bne_iff_ne]

theorem episodeOk_iff (s : Subtitles) (f : DecomposedFileName) :
    episodeOk s f = true ↔
      ((0 < s.episode → ∃ v e, f.episode_number = some v
          ∧ parseNat? v.data = some e ∧ s.episode ≤ e ∧ e ≤ s.to_episode)
        ∧ (s.episode = 0 → f.episode_number = none)) := by
  unfold episodeOk
  cases hf : f.episode_number with
  | none =>
    simp only [beq_iff_eq, reduceCtorEq, false_and, exists_false, imp_false]
    constructor
    · intro h
      exact ⟨by omega, fun _ => trivial⟩
    · rintro ⟨h1, h2⟩
      omega
  | some v =>
    dsimp only
    by_cases he : s.episode = 0
    · rw [if_pos he]
      simp only [Bool.false_eq_true, false_iff, not_and]
      intro h1 h2
      exact Option.noConfusion (h2 he)
    · rw [if_neg he]
      cases hp : parseNat? v.data with
      | none =>
        simp only [Bool.false_eq_true, false_iff, not_and]
        intro h1
        rcases h1 (by omega) with ⟨v₁, e, hv, hpe, _⟩
        obtain rfl : v₁ = v := by injection hv with h; exact h.symm
        rw [hp] at hpe
        exact absurd hpe (by simp)
      | some e =>
        simp only [Bool.and_eq_true, decide_eq_true_eq]
        constructor
        · rintro ⟨hle, hge⟩
          exact ⟨fun _ => ⟨v, e, rfl, hp, hle, hge⟩, fun hz => absurd hz he⟩
        · rintro ⟨h1, h2⟩
          rcases h1 (by omega) with ⟨v₁, e₁, hv, hpe, hle, hge⟩
          obtain rfl : v₁ = v := by injection hv with h; exact h.symm
          rw [hp] at hpe
          obtain rfl : e₁ = e := by injection hpe with h; exact h.symm
          exact ⟨hle, hge⟩

theorem titleFilterOk_iff (s : Subtitles) (q : List Char) :
    titleFilterOk s q = true ↔ ∃ t ∈ titleCands s, simOk t q = true := by
  simp [titleFilterOk, List.any_eq_true]

/-! ## The claims about the fitness scorer -/

/-- Claim C1 (amended): for every record and decomposed map that pass the
hard filters, the fitness score equals the bit-packed composite
`((T+1) <<< 8) ||| (C <<< 5) ||| (B <<< 4) ||| A` with `T ∈ [60, 100]`
the integer-rounded best title similarity percent, `C ∈ {0..3}` the
Tier-2 count, `B ∈ {0,1}` the Tier-3 bit, `A ∈ {0..6}` the Tier-4
count; and on the spec's scenario-3 record and decomposed map (perfect
title, all tier matches) the score decodes to title 100, `C = 3`,
`B = 1`, `A = 6` and equals 25974 — not the spec's numeral 25958, which
drops the `B <<< 4` contribution. -/
theorem fitness_bit_packed (s : Subtitles) (f : DecomposedFileName)
    (h : hardOk s f = true) :
    (calculate_fitness s f
        = ((bestTitlePercent s (animeTitleNorm f) + 1) <<< 8)
            ||| (tier2Count s f <<< 5) ||| (tier3Bit s f <<< 4)
            ||| tier4Count s f
      ∧ 60 ≤ bestTitlePercent s (animeTitleNorm f)
      ∧ bestTitlePercent s (animeTitleNorm f) ≤ 100
      ∧ tier2Count s f ≤ 3 ∧ tier3Bit s f ≤ 1 ∧ tier4Count s f ≤ 6)
    ∧ (calculate_fitness scenario3Record scenario3Parsed = 25974
      ∧ calculate_fitness scenario3Record scenario3Parsed >>> 8 = 100 + 1
      ∧ calculate_fitness scenario3Record scenario3Parsed >>> 5 &&& 7 = 3
      ∧ calculate_fitness scenario3Record scenario3Parsed >>> 4 &&& 1 = 1
      ∧ calculate_fitness scenario3Record scenario3Parsed &&& 15 = 6) := by
  constructor
  · refine ⟨?_, ?_, ?_, ?_, ?_, ?_⟩
    · unfold calculate_fitness
      rw [if_pos h]
      rfl
    · exact bestTitlePercent_ge_60 s _ (hardOk_parts s f h).2.2
    · exact bestTitlePercent_le_100 s _
    · exact tier2Count_le s f
    · exact tier3Bit_le s f
    · exact tier4Count_le s f
  · exact ⟨by decide, by decide, by decide, by decide, by decide⟩

/-- Witness for C1 at the spec's scenario-3 inputs. -/
theorem fitness_bit_packed_witness :
    hardOk scenario3Record scenario3Parsed = true
      ∧ calculate_fitness scenario3Record scenario3Parsed
          = ((bestTitlePercent scenario3Record (animeTitleNorm scenario3Parsed) + 1) <<< 8)
              ||| (tier2Count scenario3Record scenario3Parsed <<< 5)
              ||| (tier3Bit scenario3Record scenario3Parsed <<< 4)
              ||| tier4Count scenario3Record scenario3Parsed :=
  ⟨by decide,
   ((fitness_bit_packed scenario3Record scenario3Parsed (by decide)).1).1⟩

/-- Claim C1 counterexample: on the spec's own scenario-3 record and
decomposed map the fitness score differs from the claimed numeral
25958 (it is 25974; `((100+1) <<< 8) ||| (3 <<< 5) ||| (1 <<< 4) ||| 6`
is 25974). -/
theorem fitness_score_not_25958 :
    calculate_fitness scenario3Record scenario3Parsed ≠ 25958 := by decide

/-- Claim C2: the fitness score is positive exactly when every hard
filter of spec 4.4 passes — the episode filter (an episode record needs
a parsed episode number inside its range, a movie record forbids one),
the 0.60 best-title-similarity threshold, and a present non-empty
`anime_title`; any single violation yields exactly score 0. -/
theorem fitness_pos_iff_hard_filters (s : Subtitles) (f : DecomposedFileName) :
    0 < calculate_fitness s f ↔
      ((∃ t, f.anime_title = some t ∧ t ≠ "")
        ∧ (0 < s.episode → ∃ v e, f.episode_number = some v
            ∧ parseNat? v.data = some e ∧ s.episode ≤ e ∧ e ≤ s.to_episode)
        ∧ (s.episode = 0 → f.episode_number = none)
        ∧ ∃ t ∈ titleCands s, simOk t (animeTitleNorm f) = true) := by
  rw [calculate_fitness_pos_iff]
  unfold hardOk
  simp only [Bool.and_eq_true]
  rw [titlePresent_iff, episodeOk_iff, titleFilterOk_iff]
  tauto

/-- Witness for C2: a concrete positive score, with the hard-filter
conclusions extracted through the theorem. -/
theorem fitness_pos_iff_hard_filters_witness :
    (∃ t, witnessParsed.anime_title = some t ∧ t ≠ "")
      ∧ (0 < witnessRecord.episode → ∃ v e, witnessParsed.episode_number = some v
          ∧ parseNat? v.data = some e ∧ witnessRecord.episode ≤ e
          ∧ e ≤ witnessRecord.to_episode)
      ∧ (witnessRecord.episode = 0 → witnessParsed.episode_number = none)
      ∧ ∃ t ∈ titleCands witnessRecord,
          simOk t (animeTitleNorm witnessParsed) = true :=
  (fitness_pos_iff_hard_filters witnessRecord witnessParsed).mp (by decide)

/-- Claim C3: strict tier dominance.  For a fixed decomposed map and two
records passing the hard filters: a strictly larger integer title
percent forces a strictly larger score regardless of any lower-tier
matches; with equal title percents, one Tier-2 match alone beats the
Tier-3 release-group bit alone, which beats a single Tier-4 match
alone. -/
theorem tier_dominance :
    (∀ (f : DecomposedFileName) (s₁ s₂ : Subtitles),
        hardOk s₁ f = true → hardOk s₂ f = true →
        bestTitlePercent s₂ (animeTitleNorm f) < bestTitlePercent s₁ (animeTitleNorm f) →
        calculate_fitness s₂ f < calculate_fitness s₁ f)
    ∧ (∀ (f : DecomposedFileName) (s₁ s₂ : Subtitles),
        hardOk s₁ f = true → hardOk s₂ f = true →
        bestTitlePercent s₁ (animeTitleNorm f) = bestTitlePercent s₂ (animeTitleNorm f) →
        tier2Count s₁ f = 1 → tier3Bit s₁ f = 0 → tier4Count s₁ f = 0 →
        tier2Count s₂ f = 0 → tier3Bit s₂ f = 1 → tier4Count s₂ f = 0 →
        calculate_fitness s₂ f < calculate_fitness s₁ f)
    ∧ (∀ (f : DecomposedFileName) (s₁ s₂ : Subtitles),
        hardOk s₁ f = true → hardOk s₂ f = true →
        bestTitlePercent s₁ (animeTitleNorm f) = bestTitlePercent s₂ (animeTitleNorm f) →
        tier2Count s₁ f = 0 → tier3Bit s₁ f = 1 → tier4Count s₁ f = 0 →
        tier2Count s₂ f = 0 → tier3Bit s₂ f = 0 → tier4Count s₂ f = 1 →
        calculate_fitness s₂ f < calculate_fitness s₁ f) := by
  refine ⟨?_, ?_, ?_⟩
  · intro f s₁ s₂ h₁ h₂ hT
    have e₁ := packScore_eq s₁ f (bestTitlePercent_le_100 s₁ (animeTitleNorm f))
    have e₂ := packScore_eq s₂ f (bestTitlePercent_le_100 s₂ (animeTitleNorm f))
    have hC := tier2Count_le s₂ f
    have hB := tier3Bit_le s₂ f
    have hA := tier4Count_le s₂ f
    unfold calculate_fitness
    rw [if_pos h₁, if_pos h₂, e₁, e₂]
    omega
  · intro f s₁ s₂ h₁ h₂ hT hC₁ hB₁ hA₁ hC₂ hB₂ hA₂
    have e₁ := packScore_eq s₁ f (bestTitlePercent_le_100 s₁ (animeTitleNorm f))
    have e₂ := packScore_eq s₂ f (bestTitlePercent_le_100 s₂ (animeTitleNorm f))
    unfold calculate_fitness
    rw [if_pos h₁, if_pos h₂, e₁, e₂]
    omega
  · intro f s₁ s₂ h₁ h₂ hT hC₁ hB₁ hA₁ hC₂ hB₂ hA₂
    have e₁ := packScore_eq s₁ f (bestTitlePercent_le_100 s₁ (animeTitleNorm f))
    have e₂ := packScore_eq s₂ f (bestTitlePercent_le_100 s₂ (animeTitleNorm f))
    unfold calculate_fitness
    rw [if_pos h₁, if_pos h₂, e₁, e₂]
    omega

/-- Witness for C3 on concrete records: a weaker title loses to a
perfect one despite three lower-tier matches; one Tier-2 match beats
the Tier-3 bit, which beats one Tier-4 match. -/
theorem tier_dominance_witness :
    calculate_fitness weakTitleRecord dominanceParsed
        < calculate_fitness witnessRecord dominanceParsed
      ∧ calculate_fitness tier3Record dominanceParsed
          < calculate_fitness tier2Record dominanceParsed
      ∧ calculate_fitness tier4Record dominanceParsed
          < calculate_fitness tier3Record dominanceParsed :=
  ⟨tier_dominance.1 dominanceParsed witnessRecord weakTitleRecord
      (by decide) (by decide) (by decide),
   tier_dominance.2.1 dominanceParsed tier2Record tier3Record
      (by decide) (by decide) (by decide) (by decide) (by decide)
      (by decide) (by decide) (by decide) (by decide),
   tier_dominance.2.2 dominanceParsed tier3Record tier4Record
      (by decide) (by decide) (by decide) (by decide) (by decide)
      (by decide) (by decide) (by decide) (by decide)⟩

/-- Claim C10: the scorer is total over malformed decomposed input: an
episode number that does not parse yields score 0 for every record (no
failure), and an empty record description never prevents scoring — a
record passing the hard filters still scores positively on title
alone. -/
theorem fitness_total_on_malformed :
    (∀ (s : Subtitles) (f : DecomposedFileName) (v : String),
        f.episode_number = some v → parseNat? v.data = none →
        calculate_fitness s f = 0)
    ∧ (∀ (s : Subtitles) (f : DecomposedFileName),
        s.description = "" → hardOk s f = true → 0 < calculate_fitness s f) := by
  constructor
  · intro s f v hv hp
    have hep : episodeOk s f = false := by
      unfold episodeOk
      rw [hv]
      dsimp only
      rw [hp]
      split <;> rfl
    simp [calculate_fitness, hardOk, hep]
  · intro s f _ hh
    exact calculate_fitness_pos s f hh

/-- Witness for C10: the unparseable episode number of
`test_invalid_episode_number_string` scores 0, and the empty-description
record of `test_empty_description_no_crashes` still scores positively. -/
theorem fitness_total_on_malformed_witness :
    calculate_fitness witnessRecord badEpisodeParsed = 0
      ∧ 0 < calculate_fitness witnessRecord emptyDescParsed :=
  ⟨fitness_total_on_malformed.1 witnessRecord badEpisodeParsed "not_a_number"
      rfl (by decide),
   fitness_total_on_malformed.2 witnessRecord emptyDescParsed rfl (by decide)⟩

/-! ## The claim about the search-result records (C4) -/

theorem parseEpisodeCell_invariant (cell : String) :
    (parseEpisodeCell cell).1 ≤ (parseEpisodeCell cell).2
      ∧ ((parseEpisodeCell cell).1 = 0 → (parseEpisodeCell cell).2 = 0) := by
  unfold parseEpisodeCell
  split
  · exact ⟨Nat.le_refl 0, fun _ => rfl⟩
  · split
    · exact ⟨Nat.le_refl _, fun h => h⟩
    · split
      · split
        · split
          · rename_i hnm
            simp only [Bool.and_eq_true, decide_eq_true_eq] at hnm
            constructor
            · exact hnm.2
            · intro h
              dsimp only at h
              omega
          · exact ⟨Nat.le_refl 0, fun _ => rfl⟩
        · exact ⟨Nat.le_refl 0, fun _ => rfl⟩
      · exact ⟨Nat.le_refl 0, fun _ => rfl⟩

theorem parseRatingCells_invariant (b a v : Nat) :
    (parseRatingCells b a v).bad + (parseRatingCells b a v).average
        + (parseRatingCells b a v).very_good = 0
      ∨ (parseRatingCells b a v).bad + (parseRatingCells b a v).average
          + (parseRatingCells b a v).very_good = 100 := by
  unfold parseRatingCells
  split
  · rename_i h
    right
    exact h
  · left
    rfl

/-- Claim C4: every `SubtitleRecord` assembled from the rows of a
search-results page satisfies the invariants of spec 3:
`episode ≤ to_episode`, a record with `episode = 0` also has
`to_episode = 0`, a positive id, and a rating distribution summing to 0
(no votes) or 100 (normalized percent). -/
theorem search_records_invariants (rows : List RawRow) (r : Subtitles)
    (hr : r ∈ parseSearchResults rows) :
    r.episode ≤ r.to_episode ∧ (r.episode = 0 → r.to_episode = 0)
      ∧ 0 < r.id
      ∧ (r.rating.bad + r.rating.average + r.rating.very_good = 0
          ∨ r.rating.bad + r.rating.average + r.rating.very_good = 100) := by
  unfold parseSearchResults at hr
  rcases List.mem_filterMap.mp hr with ⟨row, _, hpr⟩
  unfold parseRow at hpr
  cases hid : parseNat? row.idCell.data with
  | none =>
    rw [hid] at hpr
    cases hpr
  | some i =>
    rw [hid] at hpr
    dsimp only at hpr
    by_cases hz : i = 0
    · rw [if_pos hz] at hpr
      cases hpr
    · rw [if_neg hz] at hpr
      obtain rfl : _ = r := by injection hpr
      have hec := parseEpisodeCell_invariant row.episodeCell
      have hrc := parseRatingCells_invariant row.ratingBad row.ratingAverage
        row.ratingVeryGood
      refine ⟨hec.1, hec.2, ?_, hrc⟩
      dsimp only
      omega

/-- Witness for C4: the 1-9 pack row assembles into `packRowRecord`,
which the theorem certifies. -/
theorem search_records_invariants_witness :
    packRowRecord ∈ parseSearchResults [episodeRow, packRow]
      ∧ packRowRecord.episode ≤ packRowRecord.to_episode
      ∧ (packRowRecord.episode = 0 → packRowRecord.to_episode = 0)
      ∧ 0 < packRowRecord.id
      ∧ (packRowRecord.rating.bad + packRowRecord.rating.average
            + packRowRecord.rating.very_good = 0
          ∨ packRowRecord.rating.bad + packRowRecord.rating.average
              + packRowRecord.rating.very_good = 100) :=
  ⟨by decide,
   search_records_invariants [episodeRow, packRow] packRowRecord (by decide)⟩

/-! ## The claim about archive selection (C5) -/

theorem pickBest_eq_none (score : ZipEntry → Nat) (l : List ZipEntry) :
    pickBest score l = none ↔ l = [] := by
  cases l with
  | nil => simp [pickBest]
  | cons e rest =>
    unfold pickBest
    cases pickBest score rest <;> simp

theorem pickBest_mem (score : ZipEntry → Nat) (l : List ZipEntry)
    (m : ZipEntry) (hm : pickBest score l = some m) : m ∈ l := by
  induction l with
  | nil => cases hm
  | cons e rest ih =>
    unfold pickBest at hm
    cases hb : pickBest score rest with
    | none =>
      rw [hb] at hm
      obtain rfl : e = m := by injection hm
      exact List.mem_cons_self e rest
    | some b =>
      rw [hb] at hm
      dsimp only at hm
      by_cases hlt : score e < score b
      · rw [if_pos hlt] at hm
        obtain rfl : b = m := by injection hm
        exact List.mem_cons_of_mem e (ih hb)
      · rw [if_neg hlt] at hm
        obtain rfl : e = m := by injection hm
        exact List.mem_cons_self e rest

theorem pickBest_max (score : ZipEntry → Nat) :
    ∀ (l : List ZipEntry) (m : ZipEntry), pickBest score l = some m →
      ∀ x ∈ l, score x ≤ score m := by
  intro l
  induction l with
  | nil => intro m hm; cases hm
  | cons e rest ih =>
    intro m hm
    unfold pickBest at hm
    cases hb : pickBest score rest with
    | none =>
      rw [hb] at hm
      obtain rfl : e = m := by injection hm
      have : rest = [] := (pickBest_eq_none score rest).mp hb
      subst this
      intro x hx
      rcases List.mem_singleton.mp hx with rfl
      exact Nat.le_refl _
    | some b =>
      rw [hb] at hm
      dsimp only at hm
      by_cases hlt : score e < score b
      · rw [if_pos hlt] at hm
        obtain rfl : b = m := by injection hm
        intro x hx
        rcases List.mem_cons.mp hx with rfl | hx
        · exact Nat.le_of_lt hlt
        · exact ih b hb x hx
      · rw [if_neg hlt] at hm
        obtain rfl : e = m := by injection hm
        intro x hx
        rcases List.mem_cons.mp hx with rfl | hx
        · exact Nat.le_refl _
        · exact Nat.le_trans (ih b hb x hx) (Nat.le_of_not_lt hlt)

theorem pickBest_first (score : ZipEntry → Nat) :
    ∀ (l : List ZipEntry) (m : ZipEntry), pickBest score l = some m →
      ∃ l₁ l₂, l = l₁ ++ m :: l₂ ∧ ∀ x ∈ l₁, score x < score m := by
  intro l
  induction l with
  | nil => intro m hm; cases hm
  | cons e rest ih =>
    intro m hm
    unfold pickBest at hm
    cases hb : pickBest score rest with
    | none =>
      rw [hb] at hm
      obtain rfl : e = m := by injection hm
      exact ⟨[], rest, rfl, by simp⟩
    | some b =>
      rw [hb] at hm
      dsimp only at hm
      by_cases hlt : score e < score b
      · rw [if_pos hlt] at hm
        obtain rfl : b = m := by injection hm
        rcases ih b hb with ⟨l₁, l₂, hsplit, hless⟩
        refine ⟨e :: l₁, l₂, by rw [hsplit]; rfl, ?_⟩
        intro x hx
        rcases List.mem_cons.mp hx with rfl | hx
        · exact hlt
        · exact hless x hx
      · rw [if_neg hlt] at hm
        obtain rfl : e = m := by injection hm
        exact ⟨[], rest, rfl, by simp⟩

/-- Claim C5: `download_and_extract` fails with `EmptyArchive` on an
archive without entries; with at least one positively scoring entry it
returns the entry of maximum fitness, ties broken by archive order (no
earlier entry reaches the chosen score); and when every entry scores 0
it returns the first entry. -/
theorem archive_selection (decompose : String → DecomposedFileName)
    (f : DecomposedFileName) (entries : List ZipEntry) :
    (entries = [] →
      download_and_extract decompose f entries = .error .emptyArchive)
    ∧ (∀ e0 rest, entries = e0 :: rest →
        ((∃ e ∈ entries, 0 < entryScore decompose f e) →
          ∃ chosen l₁ l₂,
            download_and_extract decompose f entries = .ok chosen
            ∧ entries = l₁ ++ chosen :: l₂
            ∧ (∀ x ∈ entries,
                entryScore decompose f x ≤ entryScore decompose f chosen)
            ∧ (∀ x ∈ l₁,
                entryScore decompose f x < entryScore decompose f chosen))
        ∧ ((∀ e ∈ entries, entryScore decompose f e = 0) →
            download_and_extract decompose f entries = .ok e0)) := by
  constructor
  · intro h
    subst h
    rfl
  · intro e0 rest hsplit
    subst hsplit
    cases hm : pickBest (entryScore decompose f) (e0 :: rest) with
    | none =>
      have := (pickBest_eq_none (entryScore decompose f) (e0 :: rest)).mp hm
      cases this
    | some m =>
      constructor
      · rintro ⟨e, he, hpos⟩
        have hmax := pickBest_max (entryScore decompose f) (e0 :: rest) m hm
        have hmpos : 0 < entryScore decompose f m :=
          Nat.lt_of_lt_of_le hpos (hmax e he)
        rcases pickBest_first (entryScore decompose f) (e0 :: rest) m hm with
          ⟨l₁, l₂, hsp, hless⟩
        refine ⟨m, l₁, l₂, ?_, hsp, hmax, hless⟩
        unfold download_and_extract
        dsimp only
        rw [hm]
        dsimp only
        rw [if_pos hmpos]
      · intro hzero
        have hmem := pickBest_mem (entryScore decompose f) (e0 :: rest) m hm
        have hmz : entryScore decompose f m = 0 := hzero m hmem
        unfold download_and_extract
        dsimp only
        rw [hm]
        dsimp only
        rw [if_neg (by omega)]

/-- Witness for C5 on a two-entry demo archive: empty archive fails, a
matching request selects the scoring entry, and a request matching
nothing falls back to the first entry. -/
theorem archive_selection_witness :
    download_and_extract demoDecomposer demoRequest [] = .error .emptyArchive
      ∧ (∃ chosen l₁ l₂,
          download_and_extract demoDecomposer demoRequest demoEntries = .ok chosen
          ∧ demoEntries = l₁ ++ chosen :: l₂
          ∧ (∀ x ∈ demoEntries, entryScore demoDecomposer demoRequest x
              ≤ entryScore demoDecomposer demoRequest chosen)
          ∧ (∀ x ∈ l₁, entryScore demoDecomposer demoRequest x
              < entryScore demoDecomposer demoRequest chosen))
      ∧ download_and_extract demoDecomposer demoMissRequest demoEntries
          = .ok ⟨"Anime - 2.srt", [11]⟩ :=
  ⟨(archive_selection demoDecomposer demoRequest []).1 rfl,
   ((archive_selection demoDecomposer demoRequest demoEntries).2 _ _ rfl).1
     ⟨⟨"Anime - 3.srt", [22]⟩, by decide, by decide⟩,
   ((archive_selection demoDecomposer demoMissRequest demoEntries).2 _ _ rfl).2
     (by decide)⟩

/-! ## The claim about the download pipeline errors (C6) -/

/-- Claim C6: the pipeline fails with `SecurityError` — carrying exactly
the subtitle id and the resolved `(sh, cookie)` — precisely when a
session token was resolved and the POST response begins as an HTML
document; it fails with `SessionDataError(subtitle_id)` precisely when
no token could be captured (before any POST outcome matters). -/
theorem download_error_conditions (subtitle_id : Nat)
    (session : Option SessionData) (resp : PostResponse) :
    ((∃ sh c, download_subtitles subtitle_id session resp
        = .error (.security subtitle_id sh c))
      ↔ (session.isSome = true ∧ isHtmlResponse resp = true))
    ∧ (download_subtitles subtitle_id session resp
          = .error (.sessionData subtitle_id) ↔ session = none)
    ∧ (∀ t, session = some t → isHtmlResponse resp = true →
        download_subtitles subtitle_id session resp
          = .error (.security subtitle_id t.sh t.ansi_cookie)) := by
  cases session with
  | none =>
    refine ⟨?_, ?_, ?_⟩
    · constructor
      · rintro ⟨sh, c, h⟩
        simp [download_subtitles] at h
      · rintro ⟨hs, _⟩
        cases hs
    · simp [download_subtitles]
    · intro t ht
      cases ht
  | some t =>
    unfold download_subtitles
    dsimp only
    by_cases hh : isHtmlResponse resp = true
    · rw [if_pos hh]
      refine ⟨?_, ?_, ?_⟩
      · constructor
        · intro _
          exact ⟨rfl, hh⟩
        · intro _
          exact ⟨t.sh, t.ansi_cookie, rfl⟩
      · constructor
        · intro h
          simp at h
        · intro h
          cases h
      · intro t₁ ht₁ _
        obtain rfl : t₁ = t := by injection ht₁ with h; exact h.symm
        rfl
    · rw [if_neg hh]
      refine ⟨?_, ?_, ?_⟩
      · constructor
        · rintro ⟨sh, c, h⟩
          simp at h
        · rintro ⟨_, hcontra⟩
          exact absurd hcontra hh
      · constructor
        · intro h
          simp at h
        · intro h
          cases h
      · intro t₁ ht₁ hcontra
        exact absurd hcontra hh

/-- Witness for C6 with the inputs of the in-repo security-error and
session-data-error tests. -/
theorem download_error_conditions_witness :
    download_subtitles 888 (some demoSession) htmlResponse
        = .error (.security 888 demoSession.sh demoSession.ansi_cookie)
      ∧ download_subtitles 999 none zipResponse
          = .error (.sessionData 999) :=
  ⟨(download_error_conditions 888 (some demoSession) htmlResponse).2.2
      demoSession rfl (by decide),
   ((download_error_conditions 999 none zipResponse).2.1).mpr rfl⟩

/-! ## The claim about catalog streaming (C8) -/

/-- Claim C8: streaming idempotence of the catalog scraper — feeding any
chunking of a page in order ends in the same state (hence the same
`result` and the same basis for the end-of-feed fuzzy match) as feeding
the concatenated whole; and once `result` is a non-null exact match it
never changes on further chunks. -/
theorem catalog_streaming :
    (∀ (variants : List String) (st : CatalogState)
        (chunks : List (List CatalogEntry)),
        chunks.foldl (feed variants) st = feed variants st chunks.flatten)
    ∧ (∀ (variants : List String) (st : CatalogState)
        (chunk : List CatalogEntry) (u : String),
        result st = some u → result (feed variants st chunk) = some u) := by
  constructor
  · intro variants st chunks
    induction chunks generalizing st with
    | nil => rfl
    | cons c cs ih =>
      simp only [List.foldl_cons, List.flatten_cons]
      rw [ih]
      unfold feed
      rw [List.foldl_append]
  · intro variants st chunk u hu
    induction chunk generalizing st with
    | nil => exact hu
    | cons e es ih =>
      have h1 : result (feedEntry variants st e) = some u := by
        unfold result at hu ⊢
        unfold feedEntry
        dsimp only
        rw [hu]
      have h2 : feed variants st (e :: es) = feed variants (feedEntry variants st e) es := by
        unfold feed
        rw [List.foldl_cons]
      rw [h2]
      exact ih (feedEntry variants st e) h1

/-! ## The claims about the normalizer (C7, C9) -/

/-- Claim C7: the literal normalization scenarios of spec 8 hold under
the five-step algorithm of spec 4.1: the delimited Roman numeral tokens
become decimals, and the leading-zero strip of step 5 is scoped per
token (so `bar01` keeps its inner zero, as the in-repo test
`test_normalize_trailing_zeros` also pins down). -/
theorem normalize_scenarios :
    normalize "Season IV Episode II" = "season4episode2"
      ∧ normalize "02 03foo 01 bar01 11" = "23foo1bar0111" :=
  ⟨by decide, by decide⟩

/-- Claim C9 counterexample: `normalize` is not idempotent.  On `"0 1"`
the first pass collapses the all-zero token to `"0"` and yields `"01"`;
a second pass sees one token `"01"` and strips the zero, yielding
`"1"`. -/
theorem normalize_not_idempotent :
    normalize (normalize "0 1") ≠ normalize "0 1" := by decide

theorem tokenizeAux_chars :
    ∀ (l acc : List Char), (∀ c ∈ acc, isLowerAlnum c = true) →
      ∀ t ∈ tokenizeAux l acc, ∀ c ∈ t, isLowerAlnum c = true := by
  intro l
  induction l with
  | nil =>
    intro acc hacc t ht c hc
    unfold tokenizeAux at ht
    split at ht
    · cases ht
    · rcases List.mem_singleton.mp ht with rfl
      exact hacc c (List.mem_reverse.mp hc)
  | cons a as ih =>
    intro acc hacc t ht c hc
    unfold tokenizeAux at ht
    split at ht
    · rename_i ha
      refine ih (a :: acc) ?_ t ht c hc
      intro x hx
      rcases List.mem_cons.mp hx with rfl | hx
      · exact ha
      · exact hacc x hx
    · split at ht
      · exact ih [] (by simp) t ht c hc
      · rcases List.mem_cons.mp ht with rfl | ht
        · exact hacc c (List.mem_reverse.mp hc)
        · exact ih [] (by simp) t ht c hc

theorem tokenizeAux_ne_nil :
    ∀ (l acc t : List Char), t ∈ tokenizeAux l acc → t ≠ [] := by
  intro l
  induction l with
  | nil =>
    intro acc t ht
    unfold tokenizeAux at ht
    split at ht
    · cases ht
    · rename_i hne
      rcases List.mem_singleton.mp ht with rfl
      simp only [List.isEmpty_iff] at hne
      intro hc
      exact hne (List.reverse_eq_nil_iff.mp hc)
  | cons a as ih =>
    intro acc t ht
    unfold tokenizeAux at ht
    split at ht
    · exact ih (a :: acc) t ht
    · split at ht
      · exact ih [] t ht
      · rcases List.mem_cons.mp ht with rfl | ht
        · rename_i hne
          simp only [List.isEmpty_iff] at hne
          intro hc
          exact hne (List.reverse_eq_nil_iff.mp hc)
        · exact ih [] t ht

theorem tokenizeAux_all_alnum :
    ∀ (l acc : List Char), (∀ c ∈ l, isLowerAlnum c = true) →
      tokenizeAux l acc
        = if acc.isEmpty && l.isEmpty then [] else [acc.reverse ++ l] := by
  intro l
  induction l with
  | nil =>
    intro acc _
    unfold tokenizeAux
    cases hacc : acc.isEmpty
    · simp
    · simp
  | cons a as ih =>
    intro acc hl
    have ha : isLowerAlnum a = true := hl a (List.mem_cons_self a as)
    unfold tokenizeAux
    rw [if_pos ha, ih (a :: acc) (fun c hc => hl c (List.mem_cons_of_mem a hc))]
    simp [List.reverse_cons, List.append_assoc]

theorem tokenize_all_alnum (w : List Char)
    (hw : ∀ c ∈ w, isLowerAlnum c = true) (hne : w ≠ []) :
    tokenize w = [w] := by
  unfold tokenize
  rw [tokenizeAux_all_alnum w [] hw]
  rw [List.isEmpty_eq_false.mpr hne]
  simp

theorem mem_romanKeys_of_some (t d : List Char) (hd : romanValue t = some d) :
    t ∈ romanKeys := by
  unfold romanValue at hd
  rcases Option.map_eq_some'.mp hd with ⟨p, hf, hsnd⟩
  have h1 := List.find?_some hf
  have h2 := List.mem_of_find?_eq_some hf
  rw [decide_eq_true_eq] at h1
  subst h1
  exact List.mem_map_of_mem Prod.fst h2

theorem romanValue_some_snd (t d : List Char) (hd : romanValue t = some d) :
    ∃ p ∈ romanPairs, p.2 = d := by
  unfold romanValue at hd
  rcases Option.map_eq_some'.mp hd with ⟨p, hf, hsnd⟩
  exact ⟨p, List.mem_of_find?_eq_some hf, hsnd⟩

theorem roman_values_chars :
    ∀ p ∈ romanPairs, ∀ c ∈ p.2, isLowerAlnum c = true := by decide

theorem roman_values_ne_nil : ∀ p ∈ romanPairs, p.2 ≠ [] := by decide

theorem romanValue_of_values : ∀ p ∈ romanPairs, romanValue p.2 = none := by
  decide

theorem romanKeys_head_not_digit :
    ∀ k ∈ romanKeys, isDigitChar (k.headD '0') = false := by decide

theorem roman_prefix_closed :
    ∀ w ∈ romanKeys, ∀ p ∈ w.inits,
      p = [] ∨ (romanValue p).isSome = true := by decide

theorem lowerChar_fixed (c : Char) (h : isLowerAlnum c = true) :
    lowerChar c = c := by
  unfold isLowerAlnum at h
  simp only [Bool.or_eq_true, Bool.and_eq_true, decide_eq_true_eq] at h
  unfold lowerChar
  split
  · rename_i hc
    simp only [Bool.and_eq_true, decide_eq_true_eq] at hc
    exfalso
    omega
  · rfl

theorem map_lowerChar_fixed (l : List Char)
    (h : ∀ c ∈ l, isLowerAlnum c = true) : l.map lowerChar = l := by
  rw [List.map_congr_left (fun c hc => lowerChar_fixed c (h c hc))]
  simp

theorem stripZeros_chars (t : List Char) :
    ∀ c ∈ stripZeros t, c ∈ t ∨ c = '0' := by
  intro c hc
  simp only [stripZeros] at hc
  split at hc
  · exact Or.inl hc
  · split at hc
    · rcases List.mem_cons.mp hc with rfl | hc
      · exact Or.inr rfl
      · exact Or.inl (List.drop_subset _ t hc)
    · rcases List.mem_append.mp hc with hc | hc
      · have h1 : c ∈ t.takeWhile isDigitChar :=
          (List.dropWhile_sublist _).subset hc
        refine Or.inl ?_
        have h2 := List.takeWhile_append_dropWhile isDigitChar t
        rw [← h2]
        exact List.mem_append_left _ h1
      · exact Or.inl (List.drop_subset _ t hc)

theorem stripZeros_ne_nil (t : List Char) (h : t ≠ []) : stripZeros t ≠ [] := by
  simp only [stripZeros]
  split
  · exact h
  · split
    · exact List.cons_ne_nil _ _
    · rename_i hs
      simp only [List.isEmpty_iff] at hs
      intro hc
      exact hs (List.append_eq_nil.mp hc).1

theorem stripZeros_head (t : List Char) :
    stripZeros t = t
      ∨ ∃ c cs, stripZeros t = c :: cs ∧ isDigitChar c = true := by
  simp only [stripZeros]
  split
  · exact Or.inl rfl
  · split
    · exact Or.inr ⟨'0', _, rfl, by decide⟩
    · rename_i hs
      simp only [List.isEmpty_iff] at hs
      cases hcase : List.dropWhile (fun c => c = '0') (t.takeWhile isDigitChar) with
      | nil => exact absurd hcase hs
      | cons c cs =>
        refine Or.inr ⟨c, cs ++ t.drop (t.takeWhile isDigitChar).length, rfl, ?_⟩
        have h1 : c ∈ List.dropWhile (fun c => c = '0') (t.takeWhile isDigitChar) := by
          rw [hcase]
          exact List.mem_cons_self c cs
        exact List.mem_takeWhile_imp ((List.dropWhile_sublist _).subset h1)

theorem normalizeL_chars (l : List Char) :
    ∀ c ∈ normalizeL l, isLowerAlnum c = true := by
  intro c hc
  unfold normalizeL at hc
  rcases List.mem_flatten.mp hc with ⟨piece, hpiece, hcp⟩
  rcases List.mem_map.mp hpiece with ⟨t, htok, rfl⟩
  have htc : ∀ x ∈ t, isLowerAlnum x = true :=
    tokenizeAux_chars (l.map lowerChar) [] (by simp) t htok
  unfold processTok at hcp
  cases hr : romanValue t with
  | some d =>
    rw [hr] at hcp
    dsimp only at hcp
    rcases romanValue_some_snd t d hr with ⟨p, hp, hpd⟩
    subst hpd
    exact roman_values_chars p hp c hcp
  | none =>
    rw [hr] at hcp
    dsimp only at hcp
    rcases stripZeros_chars t c hcp with hct | rfl
    · exact htc c hct
    · decide

theorem processTok_ne_nil (t : List Char) (h : t ≠ []) : processTok t ≠ [] := by
  unfold processTok
  cases hr : romanValue t with
  | some d =>
    rcases romanValue_some_snd t d hr with ⟨p, hp, hpd⟩
    subst hpd
    exact roman_values_ne_nil p hp
  | none => exact stripZeros_ne_nil t h

theorem normalizeL_not_roman (l : List Char) :
    romanValue (normalizeL l) = none := by
  cases htk : tokenize (l.map lowerChar) with
  | nil =>
    have hnil : normalizeL l = [] := by
      unfold normalizeL
      rw [htk]
      rfl
    rw [hnil]
    decide
  | cons t ts =>
    have hout : normalizeL l = processTok t ++ (ts.map processTok).flatten := by
      unfold normalizeL
      rw [htk]
      rfl
    cases hr : romanValue (normalizeL l) with
    | none => rfl
    | some d =>
      exfalso
      have hw : normalizeL l ∈ romanKeys := mem_romanKeys_of_some _ d hr
      have htmem : t ∈ tokenize (l.map lowerChar) := by
        rw [htk]
        exact List.mem_cons_self t ts
      have htne : t ≠ [] := tokenizeAux_ne_nil (l.map lowerChar) [] t htmem
      have hpne : processTok t ≠ [] := processTok_ne_nil t htne
      have hpref : processTok t <+: normalizeL l := by
        rw [hout]
        exact List.prefix_append _ _
      have hinits : processTok t ∈ (normalizeL l).inits :=
        (List.mem_inits _ _).mpr hpref
      rcases roman_prefix_closed (normalizeL l) hw (processTok t) hinits with
        hnil | hsome
      · exact hpne hnil
      · rcases Option.isSome_iff_exists.mp hsome with ⟨d₀, hd₀⟩
        cases hrt : romanValue t with
        | some dt =>
          have hpt : processTok t = dt := by
            unfold processTok
            rw [hrt]
          rcases romanValue_some_snd t dt hrt with ⟨p, hp, hpd⟩
          have hvn : romanValue dt = none := by
            rw [← hpd]
            exact romanValue_of_values p hp
          rw [hpt, hvn] at hd₀
          cases hd₀
        | none =>
          have hpt : processTok t = stripZeros t := by
            unfold processTok
            rw [hrt]
          rcases stripZeros_head t with hst | ⟨c, cs, hst, hdig⟩
          · rw [hpt, hst, hrt] at hd₀
            cases hd₀
          · have hmem : processTok t ∈ romanKeys :=
              mem_romanKeys_of_some (processTok t) d₀ hd₀
            have hhead := romanKeys_head_not_digit (processTok t) hmem
            rw [hpt, hst, List.headD_cons, hdig] at hhead
            cases hhead

theorem normalizeL_idempotent (l : List Char)
    (h : stripZeros (normalizeL l) = normalizeL l) :
    normalizeL (normalizeL l) = normalizeL l := by
  by_cases hne : normalizeL l = []
  · rw [hne]
    rfl
  · have hchars := normalizeL_chars l
    have hmap : (normalizeL l).map lowerChar = normalizeL l :=
      map_lowerChar_fixed _ hchars
    have htok : tokenize ((normalizeL l).map lowerChar) = [normalizeL l] := by
      rw [hmap]
      exact tokenize_all_alnum _ hchars hne
    have hroman := normalizeL_not_roman l
    calc normalizeL (normalizeL l)
        = ((tokenize ((normalizeL l).map lowerChar)).map processTok).flatten := rfl
      _ = ([normalizeL l].map processTok).flatten := by rw [htok]
      _ = processTok (normalizeL l) := by simp
      _ = stripZeros (normalizeL l) := by
            unfold processTok
            rw [hroman]
      _ = normalizeL l := h

/-- Claim C9 (amended): `normalize` is idempotent on every string whose
normalized form the leading-zero strip of step 5 leaves unchanged; the
counterexample `"0 1"` (normalizing to `"01"`, which a second pass
strips to `"1"`) forces exactly this proviso.  A normalized string is
never a Roman numeral token and contains only lower-case base Latin
alphanumerics, so the zero strip is the only step a second pass can
re-trigger. -/
theorem normalize_idempotent_amended (s : String)
    (h : stripZeros (normalize s).data = (normalize s).data) :
    normalize (normalize s) = normalize s := by
  unfold normalize
  congr 1
  exact normalizeL_idempotent s.data h

/-- Witness for the amended C9 on the spec's first normalization
scenario. -/
theorem normalize_idempotent_amended_witness :
    stripZeros (normalize "Season IV Episode II").data
        = (normalize "Season IV Episode II").data
      ∧ normalize (normalize "Season IV Episode II")
          = normalize "Season IV Episode II" :=
  ⟨by decide, normalize_idempotent_amended _ (by decide)⟩

/-- Witness for C8: a two-entry page split into two one-entry chunks
ends in the state of the whole page, and the exact result found in the
first chunk survives the second. -/
theorem catalog_streaming_witness :
    List.foldl (feed demoVariants) initCatalogState [[demoEntryA], [demoEntryB]]
        = feed demoVariants initCatalogState [demoEntryA, demoEntryB]
      ∧ result (feed demoVariants
            (feed demoVariants initCatalogState [demoEntryA]) [demoEntryB])
          = some "szukaj_old.php?pTitle=en&szukane=Elf+Princess+Rane" :=
  ⟨catalog_streaming.1 demoVariants initCatalogState [[demoEntryA], [demoEntryB]],
   catalog_streaming.2 demoVariants
     (feed demoVariants initCatalogState [demoEntryA]) [demoEntryB] _ (by decide)⟩

end Animesubinfo
